import Mathlib

/-!
Shallow embedding of `backend/mcp_agent.py`: the MCP configuration loader
(`MCPConfig.load_config` / `save_config`), the tool-name sanitizer
(`WebMCPAgent._sanitize_and_uniq_tool_name`) and the streaming tool-call
arbitration loop (`WebMCPAgent.chat_stream`).

External collaborators (the chat model's event stream, the remote tools, the
JSON codec) are parameters of the embedding: the model's behaviour is a
per-round script of stream events, a tool invocation is a function from tool
name and parsed arguments to a result-or-exception, and `json.loads` /
`json.dump` are abstract (partial) codec functions.
-/

namespace MCPAgent

/-- Python values as far as the agent inspects them: `None`, strings,
dictionaries (association lists), and any other value, of which the code only
ever uses its `str()` rendering and its truthiness. -/
inductive PyVal where
  | vnone
  | vstr (s : String)
  | vdict (entries : List (String × PyVal))
  | vother (reprStr : String) (truthy : Bool)

/-- Python truthiness for the values above: `None`, `""` and `{}` are falsy. -/
def pyTruthy : PyVal → Bool
  | .vnone => false
  | .vstr s => !(s == "")
  | .vdict d => !d.isEmpty
  | .vother _ t => t

/-- Argument normalization of `chat_stream` (mcp_agent.py lines 367-376):
a string payload is JSON-decoded (`json.loads`, empty string short-circuits to
`{}` by the `if tool_args_raw else {}` guard), a decode failure wraps the raw
string under the sentinel key `"$raw"`, a dict is used as-is, and any other
value is stringified and wrapped under `"$raw"`.  `jloads` is the abstract
`json.loads`, returning `none` when decoding raises. -/
def parse_args (jloads : String → Option PyVal) : PyVal → PyVal
  | .vstr s =>
      if s = "" then .vdict []
      else
        match jloads s with
        | some v => v
        | none => .vdict [("$raw", .vstr s)]
  | .vdict d => .vdict d
  | .vnone => .vdict [("$raw", .vstr "None")]
  | .vother r _ => .vdict [("$raw", .vstr r)]

/-- A tool-call intent reported by the model's terminal stream event
(one element of `output.tool_calls`): an optional id, a target tool name and a
raw argument payload. -/
structure ToolCallIntent where
  id : Option String
  name : String
  args : PyVal

/-- `tool_id = tool_call.id or f"call_{i}"` (mcp_agent.py line 363):
a missing or falsy (empty) id falls back to `call_i` with the 1-based index. -/
def effToolId (tc : ToolCallIntent) (i : Nat) : String :=
  match tc.id with
  | some s => if s = "" then "call_" ++ Nat.repr i else s
  | none => "call_" ++ Nat.repr i

/-- `tool_args_raw = tool_call.args or {}` (mcp_agent.py line 365): a falsy
payload is replaced by the empty dict before parsing. -/
def effToolArgs (tc : ToolCallIntent) : PyVal :=
  if pyTruthy tc.args then tc.args else .vdict []

/-- The tagged union of streaming events `chat_stream` yields to its caller. -/
inductive Event where
  | status (content : String)
  | aiResponseStart (content : String)
  | aiResponseChunk (content : String)
  | aiResponseEnd (content : String)
  | toolPlan (content : String) (toolCount : Nat)
  | toolStart (toolId : String) (toolName : String) (toolArgs : PyVal) (progress : String)
  | toolEnd (toolId : String) (toolName : String) (result : String)
  | toolError (toolId : String) (error : String)
  | errorEv (content : String)

/-- Transcript entries of `shared_history`. -/
inductive Message where
  | user (content : String)
  | assistant (content : String)
  | assistantToolCalls (content : String) (toolCalls : List ToolCallIntent)
  | tool (toolCallId : String) (name : String) (content : String)

/-- One event of the arbitration stream `llm_tools.astream_events(...)`:
an `on_chat_model_stream` delta (whose chunk may lack content), the terminal
`on_chat_model_end` event carrying `output.tool_calls` and `output.content`,
or any other event kind, which the loop ignores. -/
inductive StreamEvent where
  | chunkEv (content : Option String)
  | modelEnd (toolCalls : Option (List ToolCallIntent)) (content : Option String)
  | otherEv

/-- The per-round local state of the streaming-arbitration phase:
`tool_calls_check`, `content_preview`, `buffered_chunks`, `response_started`,
plus the events already yielded to the caller during the stream. -/
structure StreamState where
  toolCallsCheck : Option (List ToolCallIntent)
  contentPreview : String
  buffered : List String
  responseStarted : Bool
  yielded : List Event

def initStreamState : StreamState := ⟨none, "", [], false, []⟩

/-- Processing of one arbitration-stream event (mcp_agent.py lines 301-333):
a non-empty content fragment opens the response (once) and is immediately
forwarded as a chunk; the terminal event records `tool_calls` and `content`
(the `or ""` coalescing of a missing content is `Option.getD`). -/
def procEvent (st : StreamState) : StreamEvent → StreamState
  | .chunkEv none => st
  | .chunkEv (some piece) =>
      if piece = "" then st
      else if st.responseStarted then
        { st with buffered := st.buffered ++ [piece],
                  yielded := st.yielded ++ [Event.aiResponseChunk piece] }
      else
        { st with responseStarted := true,
                  buffered := st.buffered ++ [piece],
                  yielded := st.yielded ++
                    [Event.aiResponseStart "AI正在回复...", Event.aiResponseChunk piece] }
  | .modelEnd tcs c => { st with toolCallsCheck := tcs, contentPreview := c.getD "" }
  | .otherEv => st

/-- One round's scripted model behaviour: the stream events delivered before
the stream either completes (`raises = false`) or raises (`raises = true`). -/
structure RoundScript where
  events : List StreamEvent
  raises : Bool

/-- Consuming the arbitration stream of one round, including the per-round
`except` handler (mcp_agent.py lines 334-337): an exception resets
`tool_calls_check` to `None` and `content_preview` to `""`, but leaves the
already-forwarded chunks (`buffered_chunks`, `response_started`) in place. -/
def procStream (script : RoundScript) : StreamState :=
  let st := script.events.foldl procEvent initStreamState
  if script.raises then { st with toolCallsCheck := none, contentPreview := "" } else st

/-- Python truthiness of `tool_calls_check` at `if tool_calls_check:`
(mcp_agent.py line 339): `None` and the empty list are falsy. -/
def isToolRound : Option (List ToolCallIntent) → Bool
  | some (_ :: _) => true
  | _ => false

/-- Outcome of awaiting `target_tool.ainvoke(parsed_args)`: the stringified
result, or the exception's message. -/
inductive InvokeResult where
  | ok (result : String)
  | raises (msg : String)

/-- Exact-name lookup over the registry's flat tool list (mcp_agent.py lines
381-385): the first tool whose `name` equals the requested name.  The registry
is modelled by its list of tool names. -/
def lookupTool (tools : List String) (name : String) : Option String :=
  tools.find? (fun t => t == name)

/-- Execution of the `i`-th of `n` tool-call intents of a round (mcp_agent.py
lines 356-408): parse the arguments, yield `tool_start`, resolve the tool by
exact name; a miss yields `tool_error` and records an error string, a raising
invocation yields `tool_error` and records an error string, a successful
invocation yields `tool_end`; in every case exactly one tool-role transcript
entry carrying `tool_call_id` is produced. -/
def execToolCall (tools : List String) (invoke : String → PyVal → InvokeResult)
    (jloads : String → Option PyVal) (n i : Nat) (tc : ToolCallIntent) :
    List Event × Message :=
  let tid := effToolId tc i
  let parsedArgs := parse_args jloads (effToolArgs tc)
  let startEv := Event.toolStart tid tc.name parsedArgs (Nat.repr i ++ "/" ++ Nat.repr n)
  match lookupTool tools tc.name with
  | none =>
      let errorMsg := "工具 '" ++ tc.name ++ "' 未找到"
      ([startEv, Event.toolError tid errorMsg], Message.tool tid tc.name ("错误: " ++ errorMsg))
  | some _ =>
      match invoke tc.name parsedArgs with
      | .ok r => ([startEv, Event.toolEnd tid tc.name r], Message.tool tid tc.name r)
      | .raises m =>
          let errorMsg := "工具执行出错: " ++ m
          ([startEv, Event.toolError tid errorMsg],
            Message.tool tid tc.name ("错误: " ++ errorMsg))

/-- Sequential execution of a round's tool-call intents, 1-based as in
`enumerate(tool_calls_to_run, 1)`; returns the yielded events and the
tool-role transcript entries in order. -/
def execToolCalls (tools : List String) (invoke : String → PyVal → InvokeResult)
    (jloads : String → Option PyVal) (n : Nat) : Nat → List ToolCallIntent →
    List Event × List Message
  | _, [] => ([], [])
  | i, tc :: rest =>
      ((execToolCall tools invoke jloads n i tc).1 ++
        (execToolCalls tools invoke jloads n (i + 1) rest).1,
       (execToolCall tools invoke jloads n i tc).2 ::
        (execToolCalls tools invoke jloads n (i + 1) rest).2)

/-- `final_text` of the non-tool finalization (mcp_agent.py line 421):
the concatenation of the forwarded chunks when any exist, else the terminal
event's content. -/
def finalText (st : StreamState) : String :=
  match st.buffered with
  | [] => st.contentPreview
  | _ => String.join st.buffered

/-- Non-tool-round finalization (mcp_agent.py lines 420-433): if the response
was already started, only `ai_response_end` is emitted; otherwise
`ai_response_start`, one `ai_response_chunk` when the text is non-empty, and
`ai_response_end`. -/
def finalizeEvents (st : StreamState) : List Event :=
  if st.responseStarted then [Event.aiResponseEnd (finalText st)]
  else
    [Event.aiResponseStart "AI正在回复..."] ++
      (if finalText st = "" then [] else [Event.aiResponseChunk (finalText st)]) ++
      [Event.aiResponseEnd (finalText st)]

def exhaustText : String := "已达到最大推理轮数，请缩小问题范围或稍后重试。"

/-- Round-exhaustion tail (mcp_agent.py lines 435-441), delivered as a normal
response, not as an `error` event. -/
def exhaustEvents : List Event :=
  [Event.aiResponseStart "AI正在回复...", Event.aiResponseChunk exhaustText,
    Event.aiResponseEnd exhaustText]

/-- The `while round_index < max_rounds` loop of `chat_stream` (mcp_agent.py
lines 290-441), as a function of the remaining fuel (initially `max_rounds`)
and the 1-based index of the current round.  A tool round appends the
assistant entry carrying the intents and the tool entries to the transcript
and recurses into the next round; a non-tool round finalizes and stops; spent
fuel yields the round-exhaustion tail. -/
def runRounds (scripts : Nat → RoundScript) (tools : List String)
    (invoke : String → PyVal → InvokeResult) (jloads : String → Option PyVal) :
    Nat → Nat → List Message → List Event × List Message
  | 0, _, hist => (exhaustEvents, hist)
  | fuel + 1, roundIndex, hist =>
      match (procStream (scripts roundIndex)).toolCallsCheck with
      | some (tc :: tcs) =>
          ((procStream (scripts roundIndex)).yielded ++
            Event.toolPlan ("AI决定调用 " ++ Nat.repr (tc :: tcs).length ++ " 个工具")
                (tc :: tcs).length ::
              ((execToolCalls tools invoke jloads (tc :: tcs).length 1 (tc :: tcs)).1 ++
                (runRounds scripts tools invoke jloads fuel (roundIndex + 1)
                  (hist ++ Message.assistantToolCalls "" (tc :: tcs) ::
                    (execToolCalls tools invoke jloads (tc :: tcs).length 1 (tc :: tcs)).2)).1),
           (runRounds scripts tools invoke jloads fuel (roundIndex + 1)
              (hist ++ Message.assistantToolCalls "" (tc :: tcs) ::
                (execToolCalls tools invoke jloads (tc :: tcs).length 1 (tc :: tcs)).2)).2)
      | _ => ((procStream (scripts roundIndex)).yielded ++
                finalizeEvents (procStream (scripts roundIndex)), hist)

def max_rounds : Nat := 25

/-- One record of the caller-supplied prior history: `record['user_input']`
and `record.get('ai_response')`. -/
structure HistRecord where
  userInput : String
  aiResponse : Option String

/-- Construction of `shared_history` (mcp_agent.py lines 280-286): one user
entry per record, an assistant entry only when `ai_response` is truthy, then
the new user input. -/
def buildSharedHistory : List HistRecord → String → List Message
  | [], u => [Message.user u]
  | r :: rest, u =>
      (Message.user r.userInput ::
        (match r.aiResponse with
         | some s => if s = "" then [] else [Message.assistant s]
         | none => [])) ++ buildSharedHistory rest u

/-- `chat_stream` (mcp_agent.py lines 264-441): the initial `status` event,
then the bounded arbitration loop over the scripted model behaviour.  Returns
the yielded events and the final transcript. -/
def chat_stream (scripts : Nat → RoundScript) (tools : List String)
    (invoke : String → PyVal → InvokeResult) (jloads : String → Option PyVal)
    (userInput : String) (history : List HistRecord) : List Event × List Message :=
  (Event.status "开始生成..." ::
    (runRounds scripts tools invoke jloads max_rounds 1
      (buildSharedHistory history userInput)).1,
   (runRounds scripts tools invoke jloads max_rounds 1
      (buildSharedHistory history userInput)).2)

/-- Recognizer of the assistant transcript entries that carry tool-call
intents, used to count the tool rounds a run performed. -/
def isAssistantToolCallsMsg : Message → Bool
  | .assistantToolCalls _ _ => true
  | _ => false

/-- The number of tool rounds recorded in a transcript: one
`assistant(tool_calls=[...])` entry is appended per tool round. -/
def countToolRounds (msgs : List Message) : Nat :=
  msgs.countP isAssistantToolCallsMsg

/-! ### Configuration management (`MCPConfig`, mcp_agent.py lines 23-49) -/

/-- The configuration file's state on disk. -/
inductive FileState where
  | absent
  | present (content : String)

/-- `self.default_config = {}` (mcp_agent.py line 28). -/
def default_config : PyVal := .vdict []

/-- `save_config` (mcp_agent.py lines 43-49): serialize with `json.dump`
(abstracted by `jdump`) and write; write errors are caught and only logged,
modelled as a successful write. -/
def save_config (jdump : PyVal → String) (config : PyVal) : FileState :=
  .present (jdump config)

/-- `load_config` (mcp_agent.py lines 30-41): an existing file that parses is
returned as-is; a missing file, or an existing file whose parse raises, falls
through to `save_config(self.default_config)` and returns the default.
Returns the loaded configuration and the resulting file state. -/
def load_config (jloads : String → Option PyVal) (jdump : PyVal → String) :
    FileState → PyVal × FileState
  | .present c =>
      (match jloads c with
       | some v => (v, .present c)
       | none => (default_config, save_config jdump default_config))
  | .absent => (default_config, save_config jdump default_config)

/-! ### Tool-name sanitization (`_sanitize_and_uniq_tool_name`,
mcp_agent.py lines 247-262) -/

/-- Membership in the character class `[a-zA-Z0-9_-]`. -/
def isToolNameChar (c : Char) : Bool := c.isAlphanum || c == '_' || c == '-'

/-- `re.sub(r"[^a-zA-Z0-9_-]", "_", name)`: every character outside the class
is replaced by an underscore. -/
def sanitizeChars (name : String) : String :=
  String.mk (name.data.map (fun c => if isToolNameChar c then c else '_'))

/-- `if not sanitized: sanitized = "tool"` (mcp_agent.py lines 253-254). -/
def sanitizeBase (name : String) : String :=
  if sanitizeChars name = "" then "tool" else sanitizeChars name

/-- The candidate names tried by the collision loop, in order: the base
itself, then `base_2`, `base_3`, ... (`index` starts at 1 and is incremented
before the first suffixed candidate, mcp_agent.py lines 257-260). -/
def candName (base : String) : Nat → String
  | 0 => base
  | k + 1 => base ++ "_" ++ Nat.repr (k + 2)

/-- The collision loop `while sanitized in self._used_tool_names` (mcp_agent.py
lines 257-260), which tries `candName base 0, candName base 1, ...` in order
and stops at the first candidate not in the used set.  The loop is bounded here
by an explicit fuel; `used.length + 1` iterations provably suffice
(`uniqIdx_spec` below), so the fuel-exhausted branch is dead code. -/
def findFresh (used : List String) (base : String) : Nat → Nat → Nat
  | 0, k => k
  | fuel + 1, k => if candName base k ∈ used then findFresh used base fuel (k + 1) else k

/-- The index of the candidate name the collision loop settles on. -/
def uniqIdx (used : List String) (base : String) : Nat :=
  findFresh used base (used.length + 1) 0

/-- `_sanitize_and_uniq_tool_name` (mcp_agent.py lines 247-262): sanitize the
raw name, resolve collisions against the used-name set, record the result in
the set (modelled as a list) and return it. -/
def _sanitize_and_uniq_tool_name (used : List String) (name : String) :
    String × List String :=
  let base := sanitizeBase name
  let s := candName base (uniqIdx used base)
  (s, used ++ [s])

/-- Decimal digit list of a natural number, most significant first: the
reference function `Nat.toDigitsCore` (hence `Nat.repr`, hence Python's
`str(index)` in `f"{base}_{index}"`) is proved to agree with below. -/
def digits10 (n : Nat) : List Char :=
  if _h : n / 10 = 0 then [Nat.digitChar (n % 10)]
  else digits10 (n / 10) ++ [Nat.digitChar (n % 10)]
decreasing_by
  simp_wf
  omega

/-- The contract of the sanitizer: a non-empty string over `[a-zA-Z0-9_-]`. -/
def isValidToolName (s : String) : Bool :=
  !s.data.isEmpty && s.data.all isToolNameChar

/-! ### Supporting lemmas: decimal representation -/

theorem toDigitsCore_eq_digits10 :
    ∀ (f n : Nat), n < f → ∀ (acc : List Char),
      Nat.toDigitsCore 10 f n acc = digits10 n ++ acc := by
  intro f
  induction f with
  | zero => intro n h; omega
  | succ f ih =>
    intro n h acc
    rw [digits10]
    by_cases h10 : n / 10 = 0
    · simp [Nat.toDigitsCore, h10]
    · simp only [Nat.toDigitsCore, h10, if_false, dif_neg]
      rw [ih (n / 10) (by omega) (Nat.digitChar (n % 10) :: acc)]
      simp

theorem repr_eq_digits10 (n : Nat) : Nat.repr n = (digits10 n).asString := by
  show (Nat.toDigits 10 n).asString = _
  rw [Nat.toDigits, toDigitsCore_eq_digits10 (n + 1) n (by omega), List.append_nil]

theorem repr_data (n : Nat) : (Nat.repr n).data = digits10 n := by
  rw [repr_eq_digits10]
  rfl

theorem digits10_eq (n : Nat) :
    digits10 n = if n / 10 = 0 then [Nat.digitChar (n % 10)]
      else digits10 (n / 10) ++ [Nat.digitChar (n % 10)] := by
  rw [digits10]
  by_cases h : n / 10 = 0
  · rw [dif_pos h, if_pos h]
  · rw [dif_neg h, if_neg h]

theorem digitChar_injOn :
    ∀ m, m < 10 → ∀ n, n < 10 → Nat.digitChar m = Nat.digitChar n → m = n := by
  decide

theorem digitChar_isDigit : ∀ m, m < 10 → (Nat.digitChar m).isDigit = true := by
  decide

theorem digits10_ne_nil (n : Nat) : digits10 n ≠ [] := by
  rw [digits10]
  split <;> simp

theorem digits10_injective : ∀ m n, digits10 m = digits10 n → m = n := by
  intro m
  induction m using Nat.strong_induction_on with
  | _ m ih =>
    intro n h
    rw [digits10_eq m, digits10_eq n] at h
    by_cases hm : m / 10 = 0 <;> by_cases hn : n / 10 = 0
    · rw [if_pos hm, if_pos hn] at h
      have hc : (m % 10).digitChar = (n % 10).digitChar := by simpa using h
      have := digitChar_injOn (m % 10) (by omega) (n % 10) (by omega) hc
      omega
    · exfalso
      rw [if_pos hm, if_neg hn] at h
      have hlen := congrArg List.length h
      rw [List.length_append] at hlen
      simp only [List.length_singleton] at hlen
      have := List.length_eq_zero.mp (show (digits10 (n / 10)).length = 0 by omega)
      exact digits10_ne_nil (n / 10) this
    · exfalso
      rw [if_neg hm, if_pos hn] at h
      have hlen := congrArg List.length h
      rw [List.length_append] at hlen
      simp only [List.length_singleton] at hlen
      have := List.length_eq_zero.mp (show (digits10 (m / 10)).length = 0 by omega)
      exact digits10_ne_nil (m / 10) this
    · rw [if_neg hm, if_neg hn] at h
      obtain ⟨h1, h2⟩ := List.append_inj' h (by simp)
      have hdiv := ih (m / 10) (by omega) (n / 10) h1
      have hc : (m % 10).digitChar = (n % 10).digitChar := by simpa using h2
      have hmod := digitChar_injOn (m % 10) (by omega) (n % 10) (by omega) hc
      omega

theorem repr_injective : Function.Injective Nat.repr := by
  intro m n h
  have hd : digits10 m = digits10 n := by
    rw [← repr_data, ← repr_data, h]
  exact digits10_injective _ _ hd

theorem digits10_isDigit : ∀ n, ∀ c ∈ digits10 n, c.isDigit = true := by
  intro n
  induction n using Nat.strong_induction_on with
  | _ n ih =>
    intro c hc
    rw [digits10_eq n] at hc
    by_cases hn : n / 10 = 0
    · rw [if_pos hn] at hc
      simp only [List.mem_singleton] at hc
      exact hc ▸ digitChar_isDigit (n % 10) (by omega)
    · rw [if_neg hn] at hc
      rcases List.mem_append.mp hc with hc | hc
      · exact ih (n / 10) (by omega) c hc
      · simp only [List.mem_singleton] at hc
        exact hc ▸ digitChar_isDigit (n % 10) (by omega)

/-! ### Supporting lemmas: the name sanitizer -/

theorem repr_length_pos (n : Nat) : 0 < (Nat.repr n).length := by
  have h : (Nat.repr n).data.length ≠ 0 := by
    intro h0
    exact digits10_ne_nil n (repr_data n ▸ List.length_eq_zero.mp h0)
  have : (Nat.repr n).length = (Nat.repr n).data.length := rfl
  omega

theorem candName_injective (base : String) : Function.Injective (candName base) := by
  intro j k h
  match j, k with
  | 0, 0 => rfl
  | 0, k + 1 =>
    exfalso
    have hlen := congrArg String.length h
    rw [candName, candName, String.length_append, String.length_append] at hlen
    have := repr_length_pos (k + 2)
    have h1 : ("_" : String).length = 1 := rfl
    omega
  | j + 1, 0 =>
    exfalso
    have hlen := congrArg String.length h
    rw [candName, candName, String.length_append, String.length_append] at hlen
    have := repr_length_pos (j + 2)
    have h1 : ("_" : String).length = 1 := rfl
    omega
  | j + 1, k + 1 =>
    rw [candName, candName] at h
    have hd := congrArg String.data h
    simp only [String.data_append] at hd
    have hr : (Nat.repr (j + 2)).data = (Nat.repr (k + 2)).data :=
      List.append_cancel_left hd
    have : (j + 2 : Nat) = k + 2 := by
      apply digits10_injective
      rw [← repr_data, ← repr_data, hr]
    omega

theorem exists_fresh (used : List String) (base : String) :
    ∃ j, j < used.length + 1 ∧ candName base j ∉ used := by
  by_contra hc
  push_neg at hc
  have hsub : (Finset.range (used.length + 1)).image (candName base) ⊆ used.toFinset := by
    intro s hs
    simp only [Finset.mem_image, Finset.mem_range] at hs
    obtain ⟨j, hj, rfl⟩ := hs
    exact List.mem_toFinset.mpr (hc j hj)
  have h1 := Finset.card_le_card hsub
  rw [Finset.card_image_of_injective _ (candName_injective base), Finset.card_range] at h1
  have h2 := used.toFinset_card_le
  omega

theorem findFresh_fresh (used : List String) (base : String) :
    ∀ fuel k, (∃ j, k ≤ j ∧ j < k + fuel ∧ candName base j ∉ used) →
      candName base (findFresh used base fuel k) ∉ used := by
  intro fuel
  induction fuel with
  | zero =>
    intro k ⟨j, hj1, hj2, _⟩
    omega
  | succ fuel ih =>
    intro k ⟨j, hj1, hj2, hj3⟩
    rw [findFresh]
    by_cases hk : candName base k ∈ used
    · rw [if_pos hk]
      apply ih
      have hne : j ≠ k := by
        intro he
        exact hj3 (he ▸ hk)
      exact ⟨j, by omega, by omega, hj3⟩
    · rw [if_neg hk]
      exact hk

theorem uniqIdx_spec (used : List String) (base : String) :
    candName base (uniqIdx used base) ∉ used := by
  obtain ⟨j, hj, hfree⟩ := exists_fresh used base
  exact findFresh_fresh used base (used.length + 1) 0 ⟨j, by omega, by omega, hfree⟩

theorem isToolNameChar_of_isDigit (c : Char) (h : c.isDigit = true) :
    isToolNameChar c = true := by
  simp [isToolNameChar, Char.isAlphanum, h]

theorem sanitizeChars_all (name : String) :
    (sanitizeChars name).data.all isToolNameChar = true := by
  rw [sanitizeChars]
  show ((name.data.map _).all _) = true
  rw [List.all_map]
  apply List.all_eq_true.mpr
  intro c _
  by_cases h : isToolNameChar c = true
  · simp only [Function.comp_apply]
    rw [if_pos h]
    exact h
  · simp only [Function.comp_apply]
    rw [if_neg h]
    rfl

theorem isValidToolName_iff (s : String) :
    isValidToolName s = true ↔ s.data ≠ [] ∧ s.data.all isToolNameChar = true := by
  rw [isValidToolName]
  simp [List.isEmpty_iff]

theorem sanitizeBase_valid (name : String) :
    isValidToolName (sanitizeBase name) = true := by
  rw [sanitizeBase]
  by_cases h : sanitizeChars name = ""
  · rw [if_pos h]
    decide
  · rw [if_neg h]
    rw [isValidToolName_iff]
    refine ⟨?_, sanitizeChars_all name⟩
    intro h0
    exact h (String.ext h0)

theorem candName_valid (base : String) (hb : isValidToolName base = true) (k : Nat) :
    isValidToolName (candName base k) = true := by
  match k with
  | 0 => exact hb
  | k + 1 =>
    rw [candName, isValidToolName_iff]
    rw [isValidToolName_iff] at hb
    obtain ⟨hb1, hb2⟩ := hb
    constructor
    · intro h0
      have := congrArg List.length h0
      simp only [String.data_append, List.length_append, List.length_nil] at this
      have hlb : base.data.length ≠ 0 := by
        intro hz
        exact hb1 (List.length_eq_zero.mp hz)
      omega
    · simp only [String.data_append, List.all_append, Bool.and_eq_true]
      refine ⟨⟨hb2, ?_⟩, ?_⟩
      · decide
      · rw [List.all_eq_true]
        intro c hc
        exact isToolNameChar_of_isDigit c (digits10_isDigit _ c (repr_data _ ▸ hc))

/-! ### Supporting lemmas: the arbitration loop -/

theorem runRounds_tool_eq (scripts : Nat → RoundScript) (tools : List String)
    (invoke : String → PyVal → InvokeResult) (jloads : String → Option PyVal)
    (fuel roundIndex : Nat) (hist : List Message) (tc : ToolCallIntent)
    (tcs : List ToolCallIntent)
    (h : (procStream (scripts roundIndex)).toolCallsCheck = some (tc :: tcs)) :
    runRounds scripts tools invoke jloads (fuel + 1) roundIndex hist =
      ((procStream (scripts roundIndex)).yielded ++
        Event.toolPlan ("AI决定调用 " ++ Nat.repr (tc :: tcs).length ++ " 个工具")
            (tc :: tcs).length ::
          ((execToolCalls tools invoke jloads (tc :: tcs).length 1 (tc :: tcs)).1 ++
            (runRounds scripts tools invoke jloads fuel (roundIndex + 1)
              (hist ++ Message.assistantToolCalls "" (tc :: tcs) ::
                (execToolCalls tools invoke jloads (tc :: tcs).length 1 (tc :: tcs)).2)).1),
       (runRounds scripts tools invoke jloads fuel (roundIndex + 1)
          (hist ++ Message.assistantToolCalls "" (tc :: tcs) ::
            (execToolCalls tools invoke jloads (tc :: tcs).length 1 (tc :: tcs)).2)).2) := by
  rw [runRounds, h]

theorem runRounds_notool_eq (scripts : Nat → RoundScript) (tools : List String)
    (invoke : String → PyVal → InvokeResult) (jloads : String → Option PyVal)
    (fuel roundIndex : Nat) (hist : List Message)
    (h : isToolRound (procStream (scripts roundIndex)).toolCallsCheck = false) :
    runRounds scripts tools invoke jloads (fuel + 1) roundIndex hist =
      ((procStream (scripts roundIndex)).yielded ++
        finalizeEvents (procStream (scripts roundIndex)), hist) := by
  rw [runRounds]
  cases htc : (procStream (scripts roundIndex)).toolCallsCheck with
  | none => rfl
  | some l =>
    cases l with
    | nil => rfl
    | cons a l =>
      rw [htc] at h
      simp [isToolRound] at h

theorem procStream_raises (script : RoundScript) (h : script.raises = true) :
    procStream script =
      ⟨none, "", (script.events.foldl procEvent initStreamState).buffered,
        (script.events.foldl procEvent initStreamState).responseStarted,
        (script.events.foldl procEvent initStreamState).yielded⟩ := by
  simp [procStream, h]

theorem procStream_ok (script : RoundScript) (h : script.raises = false) :
    procStream script = script.events.foldl procEvent initStreamState := by
  simp [procStream, h]

theorem foldl_chunks_started :
    ∀ (cs : List String), (∀ c ∈ cs, c ≠ "") →
    ∀ (tcs : Option (List ToolCallIntent)) (cp : String) (buf : List String)
      (ys : List Event),
      List.foldl procEvent ⟨tcs, cp, buf, true, ys⟩
          (cs.map (fun c => StreamEvent.chunkEv (some c))) =
        ⟨tcs, cp, buf ++ cs, true, ys ++ cs.map Event.aiResponseChunk⟩ := by
  intro cs
  induction cs with
  | nil =>
    intro _ tcs cp buf ys
    simp
  | cons c rest ih =>
    intro h tcs cp buf ys
    have hc : c ≠ "" := h c (List.mem_cons_self c rest)
    have hrest : ∀ x ∈ rest, x ≠ "" := fun x hx => h x (List.mem_cons_of_mem c hx)
    simp only [List.map_cons, List.foldl_cons]
    rw [show procEvent ⟨tcs, cp, buf, true, ys⟩ (StreamEvent.chunkEv (some c)) =
        (⟨tcs, cp, buf ++ [c], true, ys ++ [Event.aiResponseChunk c]⟩ : StreamState) by
      simp [procEvent, hc]]
    rw [ih hrest tcs cp (buf ++ [c]) (ys ++ [Event.aiResponseChunk c])]
    simp

theorem foldl_chunks_init :
    ∀ (cs : List String), cs ≠ [] → (∀ c ∈ cs, c ≠ "") →
      List.foldl procEvent initStreamState
          (cs.map (fun c => StreamEvent.chunkEv (some c))) =
        ⟨none, "", cs, true,
          Event.aiResponseStart "AI正在回复..." :: cs.map Event.aiResponseChunk⟩ := by
  intro cs hne h
  cases cs with
  | nil => exact absurd rfl hne
  | cons c rest =>
    have hc : c ≠ "" := h c (List.mem_cons_self c rest)
    have hrest : ∀ x ∈ rest, x ≠ "" := fun x hx => h x (List.mem_cons_of_mem c hx)
    simp only [List.map_cons, List.foldl_cons]
    rw [show procEvent initStreamState (StreamEvent.chunkEv (some c)) =
        (⟨none, "", [c], true,
          [Event.aiResponseStart "AI正在回复...", Event.aiResponseChunk c]⟩ : StreamState) by
      simp [procEvent, initStreamState, hc]]
    rw [foldl_chunks_started rest hrest none "" [c]
      [Event.aiResponseStart "AI正在回复...", Event.aiResponseChunk c]]
    simp

theorem execToolCall_msg (tools : List String) (invoke : String → PyVal → InvokeResult)
    (jloads : String → Option PyVal) (n i : Nat) (tc : ToolCallIntent) :
    ∃ content, (execToolCall tools invoke jloads n i tc).2 =
      Message.tool (effToolId tc i) tc.name content := by
  cases hl : lookupTool tools tc.name with
  | none =>
    refine ⟨"错误: " ++ ("工具 '" ++ tc.name ++ "' 未找到"), ?_⟩
    simp [execToolCall, hl]
  | some t =>
    cases hi : invoke tc.name (parse_args jloads (effToolArgs tc)) with
    | ok r =>
      refine ⟨r, ?_⟩
      simp [execToolCall, hl, hi]
    | raises m =>
      refine ⟨"错误: " ++ ("工具执行出错: " ++ m), ?_⟩
      simp [execToolCall, hl, hi]

theorem execToolCall_events (tools : List String) (invoke : String → PyVal → InvokeResult)
    (jloads : String → Option PyVal) (n i : Nat) (tc : ToolCallIntent) :
    ∃ e2, (execToolCall tools invoke jloads n i tc).1 =
      [Event.toolStart (effToolId tc i) tc.name (parse_args jloads (effToolArgs tc))
        (Nat.repr i ++ "/" ++ Nat.repr n), e2] ∧
      ((∃ r, e2 = Event.toolEnd (effToolId tc i) tc.name r) ∨
       (∃ m, e2 = Event.toolError (effToolId tc i) m)) := by
  cases hl : lookupTool tools tc.name with
  | none =>
    refine ⟨Event.toolError (effToolId tc i) ("工具 '" ++ tc.name ++ "' 未找到"), ?_, ?_⟩
    · simp [execToolCall, hl]
    · exact Or.inr ⟨_, rfl⟩
  | some t =>
    cases hi : invoke tc.name (parse_args jloads (effToolArgs tc)) with
    | ok r =>
      refine ⟨Event.toolEnd (effToolId tc i) tc.name r, ?_, Or.inl ⟨r, rfl⟩⟩
      simp [execToolCall, hl, hi]
    | raises m =>
      refine ⟨Event.toolError (effToolId tc i) ("工具执行出错: " ++ m), ?_, Or.inr ⟨_, rfl⟩⟩
      simp [execToolCall, hl, hi]

theorem execToolCalls_countP (tools : List String) (invoke : String → PyVal → InvokeResult)
    (jloads : String → Option PyVal) (n : Nat) :
    ∀ (calls : List ToolCallIntent) (i : Nat),
      ((execToolCalls tools invoke jloads n i calls).2).countP isAssistantToolCallsMsg = 0 := by
  intro calls
  induction calls with
  | nil =>
    intro i
    simp [execToolCalls]
  | cons tc rest ih =>
    intro i
    obtain ⟨content, hmsg⟩ := execToolCall_msg tools invoke jloads n i tc
    simp [execToolCalls, List.countP_cons, hmsg, isAssistantToolCallsMsg, ih (i + 1)]

theorem execToolCalls_msgs_length (tools : List String)
    (invoke : String → PyVal → InvokeResult) (jloads : String → Option PyVal) (n : Nat) :
    ∀ (calls : List ToolCallIntent) (i : Nat),
      ((execToolCalls tools invoke jloads n i calls).2).length = calls.length := by
  intro calls
  induction calls with
  | nil =>
    intro i
    rfl
  | cons tc rest ih =>
    intro i
    simp [execToolCalls, ih (i + 1)]

theorem execToolCalls_events_length (tools : List String)
    (invoke : String → PyVal → InvokeResult) (jloads : String → Option PyVal) (n : Nat) :
    ∀ (calls : List ToolCallIntent) (i : Nat),
      ((execToolCalls tools invoke jloads n i calls).1).length = 2 * calls.length := by
  intro calls
  induction calls with
  | nil =>
    intro i
    rfl
  | cons tc rest ih =>
    intro i
    obtain ⟨e2, hev, _⟩ := execToolCall_events tools invoke jloads n i tc
    simp [execToolCalls, hev, ih (i + 1)]
    omega

theorem execToolCalls_get? (tools : List String) (invoke : String → PyVal → InvokeResult)
    (jloads : String → Option PyVal) (n : Nat) :
    ∀ (calls : List ToolCallIntent) (i j : Nat) (c : ToolCallIntent),
      calls[j]? = some c →
      ∃ content, ((execToolCalls tools invoke jloads n i calls).2)[j]? =
        some (Message.tool (effToolId c (i + j)) c.name content) := by
  intro calls
  induction calls with
  | nil =>
    intro i j c h
    simp at h
  | cons tc rest ih =>
    intro i j c h
    cases j with
    | zero =>
      simp at h
      subst h
      obtain ⟨content, hmsg⟩ := execToolCall_msg tools invoke jloads n i tc
      refine ⟨content, ?_⟩
      simp [execToolCalls, hmsg]
    | succ j =>
      simp at h
      obtain ⟨content, hmsg⟩ := ih (i + 1) j c h
      refine ⟨content, ?_⟩
      have harith : i + 1 + j = i + (j + 1) := by omega
      rw [harith] at hmsg
      simp [execToolCalls]
      exact hmsg

theorem runRounds_appendOnly (scripts : Nat → RoundScript) (tools : List String)
    (invoke : String → PyVal → InvokeResult) (jloads : String → Option PyVal) :
    ∀ (fuel roundIndex : Nat) (hist : List Message),
      hist <+: (runRounds scripts tools invoke jloads fuel roundIndex hist).2 := by
  intro fuel
  induction fuel with
  | zero =>
    intro roundIndex hist
    exact List.prefix_refl hist
  | succ fuel ih =>
    intro roundIndex hist
    cases htc : (procStream (scripts roundIndex)).toolCallsCheck with
    | none =>
      rw [runRounds_notool_eq scripts tools invoke jloads fuel roundIndex hist
        (by rw [htc]; rfl)]
    | some l =>
      cases l with
      | nil =>
        rw [runRounds_notool_eq scripts tools invoke jloads fuel roundIndex hist
          (by rw [htc]; rfl)]
      | cons tc tcs =>
        rw [runRounds_tool_eq scripts tools invoke jloads fuel roundIndex hist tc tcs htc]
        refine List.IsPrefix.trans ?_ (ih (roundIndex + 1) _)
        exact List.prefix_append _ _

theorem runRounds_exhaust (scripts : Nat → RoundScript) (tools : List String)
    (invoke : String → PyVal → InvokeResult) (jloads : String → Option PyVal)
    (h : ∀ r, isToolRound (procStream (scripts r)).toolCallsCheck = true) :
    ∀ (fuel roundIndex : Nat) (hist : List Message),
      countToolRounds (runRounds scripts tools invoke jloads fuel roundIndex hist).2 =
        countToolRounds hist + fuel ∧
      ∃ pre, (runRounds scripts tools invoke jloads fuel roundIndex hist).1 =
        pre ++ exhaustEvents := by
  intro fuel
  induction fuel with
  | zero =>
    intro roundIndex hist
    exact ⟨rfl, [], rfl⟩
  | succ fuel ih =>
    intro roundIndex hist
    have htr := h roundIndex
    cases htc : (procStream (scripts roundIndex)).toolCallsCheck with
    | none =>
      rw [htc] at htr
      simp [isToolRound] at htr
    | some l =>
      cases l with
      | nil =>
        rw [htc] at htr
        simp [isToolRound] at htr
      | cons tc tcs =>
        rw [runRounds_tool_eq scripts tools invoke jloads fuel roundIndex hist tc tcs htc]
        obtain ⟨hcount, pre, hpre⟩ := ih (roundIndex + 1)
          (hist ++ Message.assistantToolCalls "" (tc :: tcs) ::
            (execToolCalls tools invoke jloads (tc :: tcs).length 1 (tc :: tcs)).2)
        constructor
        · rw [hcount]
          rw [countToolRounds, countToolRounds, List.countP_append, List.countP_cons]
          rw [execToolCalls_countP tools invoke jloads (tc :: tcs).length (tc :: tcs) 1]
          rw [show isAssistantToolCallsMsg (Message.assistantToolCalls "" (tc :: tcs)) =
            true from rfl]
          simp
          omega
        · refine ⟨(procStream (scripts roundIndex)).yielded ++
            Event.toolPlan ("AI决定调用 " ++ Nat.repr (tc :: tcs).length ++ " 个工具")
                (tc :: tcs).length ::
              ((execToolCalls tools invoke jloads (tc :: tcs).length 1 (tc :: tcs)).1 ++
                pre), ?_⟩
          rw [hpre]
          simp

/-! ### Claim theorems -/

/-- C8: for every raw input (the empty string included),
`_sanitize_and_uniq_tool_name` returns a non-empty name over `[A-Za-z0-9_-]`
(the empty sanitization falling back to the placeholder `"tool"`), the result
is never a name already in the used set, two sequential calls whose inputs
sanitize to the same base return distinct names, and a collision is resolved
by appending a numeric suffix starting at 2. -/
theorem claimC8 :
    (∀ used name, isValidToolName (_sanitize_and_uniq_tool_name used name).1 = true) ∧
    sanitizeBase "" = "tool" ∧
    (∀ used name, (_sanitize_and_uniq_tool_name used name).1 ∉ used) ∧
    (∀ used n1 n2, sanitizeBase n1 = sanitizeBase n2 →
      (_sanitize_and_uniq_tool_name (_sanitize_and_uniq_tool_name used n1).2 n2).1 ≠
        (_sanitize_and_uniq_tool_name used n1).1) ∧
    (∀ used name, sanitizeBase name ∈ used → candName (sanitizeBase name) 1 ∉ used →
      (_sanitize_and_uniq_tool_name used name).1 =
        sanitizeBase name ++ "_" ++ Nat.repr 2) := by
  refine ⟨?_, rfl, ?_, ?_, ?_⟩
  · intro used name
    exact candName_valid _ (sanitizeBase_valid name) _
  · intro used name
    exact uniqIdx_spec used (sanitizeBase name)
  · intro used n1 n2 _hsame heq
    have h2 : (_sanitize_and_uniq_tool_name (_sanitize_and_uniq_tool_name used n1).2 n2).1 ∉
        (_sanitize_and_uniq_tool_name used n1).2 :=
      uniqIdx_spec (_sanitize_and_uniq_tool_name used n1).2 (sanitizeBase n2)
    have hmem : (_sanitize_and_uniq_tool_name used n1).1 ∈
        (_sanitize_and_uniq_tool_name used n1).2 :=
      List.mem_append_right _ (List.mem_singleton.mpr rfl)
    exact h2 (heq ▸ hmem)
  · intro used name h0 h1
    have hlen : used.length ≠ 0 := by
      intro hz
      rw [List.length_eq_zero] at hz
      rw [hz] at h0
      exact (List.not_mem_nil _) h0
    obtain ⟨m, hm⟩ : ∃ m, used.length = m + 1 := ⟨used.length - 1, by omega⟩
    have hidx : uniqIdx used (sanitizeBase name) = 1 := by
      rw [uniqIdx, hm]
      rw [findFresh]
      rw [if_pos (show candName (sanitizeBase name) 0 ∈ used from h0)]
      rw [findFresh]
      rw [if_neg (show candName (sanitizeBase name) (0 + 1) ∉ used from h1)]
    show candName (sanitizeBase name) (uniqIdx used (sanitizeBase name)) = _
    rw [hidx]
    rfl

/-- Witness for C8 at concrete inputs: `"a.b"` and `"a?b"` both sanitize to
the base `"a_b"`; sequential registration gives distinct names, and with
`"a_b"` already used the result takes the suffix 2. -/
theorem claimC8_witness :
    sanitizeBase "a.b" = sanitizeBase "a?b" ∧
    (_sanitize_and_uniq_tool_name (_sanitize_and_uniq_tool_name [] "a.b").2 "a?b").1 ≠
      (_sanitize_and_uniq_tool_name [] "a.b").1 ∧
    sanitizeBase "a.b" ∈ ["a_b"] ∧
    candName (sanitizeBase "a.b") 1 ∉ ["a_b"] ∧
    (_sanitize_and_uniq_tool_name ["a_b"] "a.b").1 =
      sanitizeBase "a.b" ++ "_" ++ Nat.repr 2 := by
  refine ⟨by decide, claimC8.2.2.2.1 [] "a.b" "a?b" (by decide), by decide, by decide, ?_⟩
  exact claimC8.2.2.2.2 ["a_b"] "a.b" (by decide) (by decide)

/-- C3 counterexample: on an existing but unparseable configuration file,
`load_config` does write to disk — it falls through to
`save_config(self.default_config)` and overwrites the file with the
serialized default — contradicting the claim that nothing is written. -/
theorem claimC3_counterexample :
    load_config (fun _ => none) (fun _ => "{}") (FileState.present "not json") =
      (default_config, FileState.present "{}") ∧
    FileState.present "{}" ≠ FileState.present "not json" := by
  refine ⟨rfl, ?_⟩
  intro h
  injection h with h2
  exact absurd h2 (by decide)

/-- C3 (amended): a missing configuration file makes `load_config` persist the
default (empty) configuration and return it; an existing but unparseable file
also makes it persist (overwrite the file with) the serialized default and
return the in-memory default; a parseable file is returned without writing. -/
theorem claimC3 (jloads : String → Option PyVal) (jdump : PyVal → String) :
    load_config jloads jdump FileState.absent =
      (default_config, FileState.present (jdump default_config)) ∧
    (∀ c, jloads c = none →
      load_config jloads jdump (FileState.present c) =
        (default_config, FileState.present (jdump default_config))) ∧
    (∀ c v, jloads c = some v →
      load_config jloads jdump (FileState.present c) = (v, FileState.present c)) := by
  refine ⟨rfl, ?_, ?_⟩
  · intro c h
    simp [load_config, h, save_config]
  · intro c v h
    simp [load_config, h]

/-- Witness for C3 at concrete codecs and file contents. -/
theorem claimC3_witness :
    load_config (fun _ => none) (fun _ => "{}") (FileState.present "oops") =
      (default_config, FileState.present "{}") ∧
    load_config (fun _ => some (PyVal.vstr "x")) (fun _ => "{}") (FileState.present "oops") =
      (PyVal.vstr "x", FileState.present "oops") :=
  ⟨(claimC3 (fun _ => none) (fun _ => "{}")).2.1 "oops" rfl,
   (claimC3 (fun _ => some (PyVal.vstr "x")) (fun _ => "{}")).2.2 "oops" (PyVal.vstr "x") rfl⟩

/-- C9: the raw argument payload of a tool-call intent is normalized before
invocation exactly as the claim enumerates: a string payload is JSON-decoded,
the empty string yielding the empty mapping; a string that fails to decode is
wrapped unchanged under the sentinel key `"$raw"`; a mapping is used as-is;
and any other value is stringified and wrapped under the sentinel key. -/
theorem claimC9 (jloads : String → Option PyVal) :
    parse_args jloads (PyVal.vstr "") = PyVal.vdict [] ∧
    (∀ s v, s ≠ "" → jloads s = some v → parse_args jloads (PyVal.vstr s) = v) ∧
    (∀ s, s ≠ "" → jloads s = none →
      parse_args jloads (PyVal.vstr s) = PyVal.vdict [("$raw", PyVal.vstr s)]) ∧
    (∀ d, parse_args jloads (PyVal.vdict d) = PyVal.vdict d) ∧
    (∀ r t, parse_args jloads (PyVal.vother r t) = PyVal.vdict [("$raw", PyVal.vstr r)]) ∧
    parse_args jloads PyVal.vnone = PyVal.vdict [("$raw", PyVal.vstr "None")] := by
  refine ⟨rfl, ?_, ?_, fun d => rfl, fun r t => rfl, rfl⟩
  · intro s v hs hv
    simp [parse_args, hs, hv]
  · intro s hs hv
    simp [parse_args, hs, hv]

/-- Witness for C9 at a concrete decoder: `"ok"` decodes, `"bad"` does not. -/
theorem claimC9_witness :
    parse_args (fun s => if s = "ok" then some (PyVal.vdict [("k", PyVal.vstr "v")]) else none)
        (PyVal.vstr "ok") = PyVal.vdict [("k", PyVal.vstr "v")] ∧
    parse_args (fun s => if s = "ok" then some (PyVal.vdict [("k", PyVal.vstr "v")]) else none)
        (PyVal.vstr "bad") = PyVal.vdict [("$raw", PyVal.vstr "bad")] :=
  ⟨(claimC9 (fun s => if s = "ok" then some (PyVal.vdict [("k", PyVal.vstr "v")]) else none)).2.1
      "ok" (PyVal.vdict [("k", PyVal.vstr "v")]) (by decide) rfl,
   (claimC9 (fun s => if s = "ok" then some (PyVal.vdict [("k", PyVal.vstr "v")]) else none)).2.2.1
      "bad" (by decide) rfl⟩

/-- C5: on a model stream that emits only non-empty content fragments and
whose terminal event reports no tool-call intents, `chat_stream` yields
exactly one response-start, one response-chunk per fragment in order, and one
response-end carrying the concatenation, invokes no tool and leaves the
transcript untouched; when no chunk was forwarded, it yields response-start,
one response-chunk with the full text only if that text is non-empty, and
response-end. -/
theorem claimC5 :
    (∀ (scripts : Nat → RoundScript) (tools : List String)
       (invoke : String → PyVal → InvokeResult) (jloads : String → Option PyVal)
       (u : String) (hist : List HistRecord) (cs : List String)
       (tcs : Option (List ToolCallIntent)) (ct : Option String),
       cs ≠ [] → (∀ c ∈ cs, c ≠ "") → isToolRound tcs = false →
       scripts 1 = ⟨cs.map (fun c => StreamEvent.chunkEv (some c)) ++
         [StreamEvent.modelEnd tcs ct], false⟩ →
       chat_stream scripts tools invoke jloads u hist =
         (Event.status "开始生成..." :: Event.aiResponseStart "AI正在回复..." ::
            (cs.map Event.aiResponseChunk ++ [Event.aiResponseEnd (String.join cs)]),
          buildSharedHistory hist u)) ∧
    (∀ (scripts : Nat → RoundScript) (tools : List String)
       (invoke : String → PyVal → InvokeResult) (jloads : String → Option PyVal)
       (u : String) (hist : List HistRecord)
       (tcs : Option (List ToolCallIntent)) (t : String),
       isToolRound tcs = false →
       scripts 1 = ⟨[StreamEvent.modelEnd tcs (some t)], false⟩ →
       chat_stream scripts tools invoke jloads u hist =
         (Event.status "开始生成..." :: Event.aiResponseStart "AI正在回复..." ::
            ((if t = "" then [] else [Event.aiResponseChunk t]) ++
              [Event.aiResponseEnd t]),
          buildSharedHistory hist u)) := by
  constructor
  · intro scripts tools invoke jloads u hist cs tcs ct hne hnz htc hs
    have hst : procStream (scripts 1) =
        ⟨tcs, ct.getD "", cs, true,
          Event.aiResponseStart "AI正在回复..." :: cs.map Event.aiResponseChunk⟩ := by
      rw [hs, procStream_ok _ rfl]
      rw [List.foldl_append]
      rw [foldl_chunks_init cs hne hnz]
      simp [procEvent]
    have hnt : isToolRound (procStream (scripts 1)).toolCallsCheck = false := by
      rw [hst]
      exact htc
    simp only [chat_stream]
    rw [show max_rounds = 24 + 1 from rfl]
    rw [runRounds_notool_eq scripts tools invoke jloads 24 1 _ hnt]
    rw [hst]
    cases cs with
    | nil => exact absurd rfl hne
    | cons c rest => simp [finalizeEvents, finalText]
  · intro scripts tools invoke jloads u hist tcs t htc hs
    have hst : procStream (scripts 1) = ⟨tcs, t, [], false, []⟩ := by
      rw [hs, procStream_ok _ rfl]
      simp [procEvent, initStreamState]
    have hnt : isToolRound (procStream (scripts 1)).toolCallsCheck = false := by
      rw [hst]
      exact htc
    simp only [chat_stream]
    rw [show max_rounds = 24 + 1 from rfl]
    rw [runRounds_notool_eq scripts tools invoke jloads 24 1 _ hnt]
    rw [hst]
    simp [finalizeEvents, finalText]

/-- Witness for C5 at a concrete scripted stream: two fragments then a
terminal event with no tool calls, and a chunkless stream whose terminal
event carries the text. -/
theorem claimC5_witness :
    chat_stream (fun _ => ⟨[StreamEvent.chunkEv (some "He"), StreamEvent.chunkEv (some "y"),
        StreamEvent.modelEnd none none], false⟩) [] (fun _ _ => InvokeResult.ok "")
        (fun _ => none) "hi" [] =
      (Event.status "开始生成..." :: Event.aiResponseStart "AI正在回复..." ::
         (List.map Event.aiResponseChunk ["He", "y"] ++
           [Event.aiResponseEnd (String.join ["He", "y"])]),
       buildSharedHistory [] "hi") ∧
    chat_stream (fun _ => ⟨[StreamEvent.modelEnd none (some "ans")], false⟩) []
        (fun _ _ => InvokeResult.ok "") (fun _ => none) "hi" [] =
      (Event.status "开始生成..." :: Event.aiResponseStart "AI正在回复..." ::
         ([Event.aiResponseChunk "ans"] ++ [Event.aiResponseEnd "ans"]),
       buildSharedHistory [] "hi") := by
  constructor
  · exact claimC5.1 (fun _ => ⟨[StreamEvent.chunkEv (some "He"), StreamEvent.chunkEv (some "y"),
      StreamEvent.modelEnd none none], false⟩) [] (fun _ _ => InvokeResult.ok "")
      (fun _ => none) "hi" [] ["He", "y"] none none (by decide) (by decide) rfl rfl
  · have h := claimC5.2 (fun _ => ⟨[StreamEvent.modelEnd none (some "ans")], false⟩) []
      (fun _ _ => InvokeResult.ok "") (fun _ => none) "hi" [] none "ans" rfl rfl
    simpa using h

/-- C10: when the arbitration stream raises after non-empty fragments were
already forwarded, the round finalizes with exactly one response-end carrying
the concatenation of the fragments received before the failure — no second
response-start and no further response-chunk — and the transcript is left
untouched: the forwarded speculative content becomes the final answer. -/
theorem claimC10 :
    ∀ (scripts : Nat → RoundScript) (tools : List String)
      (invoke : String → PyVal → InvokeResult) (jloads : String → Option PyVal)
      (u : String) (hist : List HistRecord) (cs : List String),
      cs ≠ [] → (∀ c ∈ cs, c ≠ "") →
      scripts 1 = ⟨cs.map (fun c => StreamEvent.chunkEv (some c)), true⟩ →
      chat_stream scripts tools invoke jloads u hist =
        (Event.status "开始生成..." :: Event.aiResponseStart "AI正在回复..." ::
           (cs.map Event.aiResponseChunk ++ [Event.aiResponseEnd (String.join cs)]),
         buildSharedHistory hist u) := by
  intro scripts tools invoke jloads u hist cs hne hnz hs
  have hst : procStream (scripts 1) =
      ⟨none, "", cs, true,
        Event.aiResponseStart "AI正在回复..." :: cs.map Event.aiResponseChunk⟩ := by
    rw [hs, procStream_raises _ rfl]
    rw [foldl_chunks_init cs hne hnz]
  have hnt : isToolRound (procStream (scripts 1)).toolCallsCheck = false := by
    rw [hst]
    rfl
  simp only [chat_stream]
  rw [show max_rounds = 24 + 1 from rfl]
  rw [runRounds_notool_eq scripts tools invoke jloads 24 1 _ hnt]
  rw [hst]
  cases cs with
  | nil => exact absurd rfl hne
  | cons c rest => simp [finalizeEvents, finalText]

/-- Witness for C10: one fragment `"Hi"` is forwarded, then the stream
raises; the final answer is the partial text `"Hi"`. -/
theorem claimC10_witness :
    chat_stream (fun _ => ⟨[StreamEvent.chunkEv (some "Hi")], true⟩) []
        (fun _ _ => InvokeResult.ok "") (fun _ => none) "q" [] =
      (Event.status "开始生成..." :: Event.aiResponseStart "AI正在回复..." ::
         (List.map Event.aiResponseChunk ["Hi"] ++
           [Event.aiResponseEnd (String.join ["Hi"])]),
       buildSharedHistory [] "q") :=
  claimC10 (fun _ => ⟨[StreamEvent.chunkEv (some "Hi")], true⟩) []
    (fun _ _ => InvokeResult.ok "") (fun _ => none) "q" [] ["Hi"]
    (by decide) (by decide) rfl

theorem finalText_eq_join (st : StreamState) (hcp : st.contentPreview = "") :
    finalText st = String.join st.buffered := by
  cases hb : st.buffered with
  | nil => simp [finalText, hb, hcp, String.join]
  | cons c rest => simp [finalText, hb]

/-- C2 counterexample: a round whose stream raises after the fragment `"Hi"`
was already forwarded finalizes with a response-end carrying `"Hi"`, not the
empty string the claim asserts. -/
theorem claimC2_counterexample :
    chat_stream (fun _ => ⟨[StreamEvent.chunkEv (some "Hi")], true⟩) []
        (fun _ _ => InvokeResult.ok "") (fun _ => none) "q" [] =
      ([Event.status "开始生成...", Event.aiResponseStart "AI正在回复...",
        Event.aiResponseChunk "Hi", Event.aiResponseEnd "Hi"], [Message.user "q"]) ∧
    Event.aiResponseEnd "Hi" ≠ Event.aiResponseEnd "" := by
  constructor
  · rfl
  · intro h
    injection h with h1
    exact absurd h1 (by decide)

/-- C2 (amended): an exception while opening or consuming the arbitration
stream is caught within the round; the round is treated as having no tool
calls and no terminal content, the loop is not aborted, and the round
finalizes as a non-tool round whose final text is the concatenation of the
fragments already forwarded before the exception — the empty string exactly
when none were forwarded — leaving the transcript untouched. -/
theorem claimC2 :
    ∀ (scripts : Nat → RoundScript) (tools : List String)
      (invoke : String → PyVal → InvokeResult) (jloads : String → Option PyVal)
      (fuel roundIndex : Nat) (hist : List Message),
      (scripts roundIndex).raises = true →
      (procStream (scripts roundIndex)).toolCallsCheck = none ∧
      (procStream (scripts roundIndex)).contentPreview = "" ∧
      runRounds scripts tools invoke jloads (fuel + 1) roundIndex hist =
        ((procStream (scripts roundIndex)).yielded ++
          finalizeEvents (procStream (scripts roundIndex)), hist) ∧
      finalText (procStream (scripts roundIndex)) =
        String.join (procStream (scripts roundIndex)).buffered := by
  intro scripts tools invoke jloads fuel roundIndex hist h
  have hr := procStream_raises (scripts roundIndex) h
  refine ⟨by rw [hr], by rw [hr], ?_, ?_⟩
  · apply runRounds_notool_eq
    rw [hr]
    rfl
  · exact finalText_eq_join _ (by rw [hr])

/-- Witness for C2 at a concrete raising script. -/
theorem claimC2_witness :
    (procStream ⟨[StreamEvent.chunkEv (some "Hi")], true⟩).toolCallsCheck = none ∧
    (procStream ⟨[StreamEvent.chunkEv (some "Hi")], true⟩).contentPreview = "" ∧
    runRounds (fun _ => ⟨[StreamEvent.chunkEv (some "Hi")], true⟩) []
        (fun _ _ => InvokeResult.ok "") (fun _ => none) (24 + 1) 1 [Message.user "q"] =
      ((procStream ⟨[StreamEvent.chunkEv (some "Hi")], true⟩).yielded ++
        finalizeEvents (procStream ⟨[StreamEvent.chunkEv (some "Hi")], true⟩),
       [Message.user "q"]) ∧
    finalText (procStream ⟨[StreamEvent.chunkEv (some "Hi")], true⟩) =
      String.join (procStream ⟨[StreamEvent.chunkEv (some "Hi")], true⟩).buffered :=
  claimC2 (fun _ => ⟨[StreamEvent.chunkEv (some "Hi")], true⟩) []
    (fun _ _ => InvokeResult.ok "") (fun _ => none) 24 1 [Message.user "q"] rfl

/-- C1: when the terminal stream event of a round reports tool-call intents,
the round is a tool round even though content fragments were already forwarded
(`response_started = true`): the tool calls are executed, the assistant entry
carrying the intents and the tool-result entries are appended to the
transcript, and the loop proceeds to the next round — tool execution is not
suppressed (the conflict is only logged). -/
theorem claimC1 :
    ∀ (scripts : Nat → RoundScript) (tools : List String)
      (invoke : String → PyVal → InvokeResult) (jloads : String → Option PyVal)
      (fuel roundIndex : Nat) (hist : List Message) (tc : ToolCallIntent)
      (tcs : List ToolCallIntent),
      (procStream (scripts roundIndex)).toolCallsCheck = some (tc :: tcs) →
      (procStream (scripts roundIndex)).responseStarted = true →
      runRounds scripts tools invoke jloads (fuel + 1) roundIndex hist =
        ((procStream (scripts roundIndex)).yielded ++
          Event.toolPlan ("AI决定调用 " ++ Nat.repr (tc :: tcs).length ++ " 个工具")
              (tc :: tcs).length ::
            ((execToolCalls tools invoke jloads (tc :: tcs).length 1 (tc :: tcs)).1 ++
              (runRounds scripts tools invoke jloads fuel (roundIndex + 1)
                (hist ++ Message.assistantToolCalls "" (tc :: tcs) ::
                  (execToolCalls tools invoke jloads (tc :: tcs).length 1
                    (tc :: tcs)).2)).1),
         (runRounds scripts tools invoke jloads fuel (roundIndex + 1)
            (hist ++ Message.assistantToolCalls "" (tc :: tcs) ::
              (execToolCalls tools invoke jloads (tc :: tcs).length 1
                (tc :: tcs)).2)).2) := by
  intro scripts tools invoke jloads fuel roundIndex hist tc tcs h _hstarted
  exact runRounds_tool_eq scripts tools invoke jloads fuel roundIndex hist tc tcs h

/-- Witness for C1: the fragment `"x"` is forwarded, the terminal event still
reports one tool-call intent, and the round executes the tool and recurses. -/
theorem claimC1_witness :
    runRounds (fun _ => ⟨[StreamEvent.chunkEv (some "x"),
        StreamEvent.modelEnd (some [⟨none, "f", PyVal.vnone⟩]) none], false⟩) []
        (fun _ _ => InvokeResult.ok "r") (fun _ => none) (0 + 1) 1 [] =
      ((procStream ⟨[StreamEvent.chunkEv (some "x"),
          StreamEvent.modelEnd (some [⟨none, "f", PyVal.vnone⟩]) none], false⟩).yielded ++
        Event.toolPlan ("AI决定调用 " ++ Nat.repr 1 ++ " 个工具") 1 ::
          ((execToolCalls [] (fun _ _ => InvokeResult.ok "r") (fun _ => none) 1 1
              [⟨none, "f", PyVal.vnone⟩]).1 ++
            (runRounds (fun _ => ⟨[StreamEvent.chunkEv (some "x"),
                StreamEvent.modelEnd (some [⟨none, "f", PyVal.vnone⟩]) none], false⟩) []
              (fun _ _ => InvokeResult.ok "r") (fun _ => none) 0 2
              ([] ++ Message.assistantToolCalls "" [⟨none, "f", PyVal.vnone⟩] ::
                (execToolCalls [] (fun _ _ => InvokeResult.ok "r") (fun _ => none) 1 1
                  [⟨none, "f", PyVal.vnone⟩]).2)).1),
       (runRounds (fun _ => ⟨[StreamEvent.chunkEv (some "x"),
            StreamEvent.modelEnd (some [⟨none, "f", PyVal.vnone⟩]) none], false⟩) []
          (fun _ _ => InvokeResult.ok "r") (fun _ => none) 0 2
          ([] ++ Message.assistantToolCalls "" [⟨none, "f", PyVal.vnone⟩] ::
            (execToolCalls [] (fun _ _ => InvokeResult.ok "r") (fun _ => none) 1 1
              [⟨none, "f", PyVal.vnone⟩]).2)).2) :=
  claimC1 (fun _ => ⟨[StreamEvent.chunkEv (some "x"),
      StreamEvent.modelEnd (some [⟨none, "f", PyVal.vnone⟩]) none], false⟩) []
    (fun _ _ => InvokeResult.ok "r") (fun _ => none) 0 1 [] ⟨none, "f", PyVal.vnone⟩ []
    rfl rfl

/-- C6: a round whose terminal event reports `k` intents yields one tool-plan
event with `tool_count = k` followed by the per-intent events in order; each
intent yields a tool-start followed by exactly one of tool-end or tool-error
(two events per intent); a name with no exact registry match yields tool-error
and a transcript entry with a descriptive error string, as does a raising
invocation — the round is never aborted. -/
theorem claimC6 :
    (∀ (tools : List String) (invoke : String → PyVal → InvokeResult)
       (jloads : String → Option PyVal) (n i : Nat) (tc : ToolCallIntent),
      ∃ e2, (execToolCall tools invoke jloads n i tc).1 =
        [Event.toolStart (effToolId tc i) tc.name (parse_args jloads (effToolArgs tc))
          (Nat.repr i ++ "/" ++ Nat.repr n), e2] ∧
        ((∃ r, e2 = Event.toolEnd (effToolId tc i) tc.name r) ∨
         (∃ m, e2 = Event.toolError (effToolId tc i) m))) ∧
    (∀ (tools : List String) (invoke : String → PyVal → InvokeResult)
       (jloads : String → Option PyVal) (n i : Nat) (tc : ToolCallIntent),
      lookupTool tools tc.name = none →
      execToolCall tools invoke jloads n i tc =
        ([Event.toolStart (effToolId tc i) tc.name (parse_args jloads (effToolArgs tc))
            (Nat.repr i ++ "/" ++ Nat.repr n),
          Event.toolError (effToolId tc i) ("工具 '" ++ tc.name ++ "' 未找到")],
         Message.tool (effToolId tc i) tc.name
           ("错误: " ++ ("工具 '" ++ tc.name ++ "' 未找到")))) ∧
    (∀ (tools : List String) (invoke : String → PyVal → InvokeResult)
       (jloads : String → Option PyVal) (n i : Nat) (tc : ToolCallIntent)
       (t m : String),
      lookupTool tools tc.name = some t →
      invoke tc.name (parse_args jloads (effToolArgs tc)) = InvokeResult.raises m →
      execToolCall tools invoke jloads n i tc =
        ([Event.toolStart (effToolId tc i) tc.name (parse_args jloads (effToolArgs tc))
            (Nat.repr i ++ "/" ++ Nat.repr n),
          Event.toolError (effToolId tc i) ("工具执行出错: " ++ m)],
         Message.tool (effToolId tc i) tc.name
           ("错误: " ++ ("工具执行出错: " ++ m)))) ∧
    (∀ (scripts : Nat → RoundScript) (tools : List String)
       (invoke : String → PyVal → InvokeResult) (jloads : String → Option PyVal)
       (fuel roundIndex : Nat) (hist : List Message) (tc : ToolCallIntent)
       (tcs : List ToolCallIntent),
      (procStream (scripts roundIndex)).toolCallsCheck = some (tc :: tcs) →
      (runRounds scripts tools invoke jloads (fuel + 1) roundIndex hist).1 =
        (procStream (scripts roundIndex)).yielded ++
          Event.toolPlan ("AI决定调用 " ++ Nat.repr (tc :: tcs).length ++ " 个工具")
              (tc :: tcs).length ::
            ((execToolCalls tools invoke jloads (tc :: tcs).length 1 (tc :: tcs)).1 ++
              (runRounds scripts tools invoke jloads fuel (roundIndex + 1)
                (hist ++ Message.assistantToolCalls "" (tc :: tcs) ::
                  (execToolCalls tools invoke jloads (tc :: tcs).length 1
                    (tc :: tcs)).2)).1)) ∧
    (∀ (tools : List String) (invoke : String → PyVal → InvokeResult)
       (jloads : String → Option PyVal) (n : Nat) (calls : List ToolCallIntent) (i : Nat),
      ((execToolCalls tools invoke jloads n i calls).1).length = 2 * calls.length) := by
  refine ⟨execToolCall_events, ?_, ?_, ?_, ?_⟩
  · intro tools invoke jloads n i tc hl
    simp [execToolCall, hl]
  · intro tools invoke jloads n i tc t m hl hi
    simp [execToolCall, hl, hi]
  · intro scripts tools invoke jloads fuel roundIndex hist tc tcs h
    rw [runRounds_tool_eq scripts tools invoke jloads fuel roundIndex hist tc tcs h]
  · intro tools invoke jloads n calls i
    exact execToolCalls_events_length tools invoke jloads n calls i

/-- Witness for C6: a miss in an empty registry and a raising invocation in a
one-tool registry, each at intent index 1 of 1. -/
theorem claimC6_witness :
    execToolCall [] (fun _ _ => InvokeResult.ok "r") (fun _ => none) 1 1
        ⟨some "id", "f", PyVal.vnone⟩ =
      ([Event.toolStart "id" "f" (PyVal.vdict []) (Nat.repr 1 ++ "/" ++ Nat.repr 1),
        Event.toolError "id" ("工具 '" ++ "f" ++ "' 未找到")],
       Message.tool "id" "f" ("错误: " ++ ("工具 '" ++ "f" ++ "' 未找到"))) ∧
    execToolCall ["f"] (fun _ _ => InvokeResult.raises "boom") (fun _ => none) 1 1
        ⟨some "id", "f", PyVal.vnone⟩ =
      ([Event.toolStart "id" "f" (PyVal.vdict []) (Nat.repr 1 ++ "/" ++ Nat.repr 1),
        Event.toolError "id" ("工具执行出错: " ++ "boom")],
       Message.tool "id" "f" ("错误: " ++ ("工具执行出错: " ++ "boom"))) := by
  constructor
  · exact claimC6.2.1 [] (fun _ _ => InvokeResult.ok "r") (fun _ => none) 1 1
      ⟨some "id", "f", PyVal.vnone⟩ rfl
  · exact claimC6.2.2.1 ["f"] (fun _ _ => InvokeResult.raises "boom") (fun _ => none) 1 1
      ⟨some "id", "f", PyVal.vnone⟩ "f" "boom" rfl rfl

/-- C7: the transcript is only ever extended by appending (the incoming
transcript is a prefix of the final one); after a tool round, the transcript
passed to the next round is the old transcript plus an assistant entry
carrying the intents (with empty content) followed by exactly one tool-role
entry per intent, in intent order, the `j`-th carrying the tool-call id of the
`j`-th intent. -/
theorem claimC7 :
    (∀ (scripts : Nat → RoundScript) (tools : List String)
       (invoke : String → PyVal → InvokeResult) (jloads : String → Option PyVal)
       (fuel roundIndex : Nat) (hist : List Message),
      hist <+: (runRounds scripts tools invoke jloads fuel roundIndex hist).2) ∧
    (∀ (scripts : Nat → RoundScript) (tools : List String)
       (invoke : String → PyVal → InvokeResult) (jloads : String → Option PyVal)
       (fuel roundIndex : Nat) (hist : List Message) (tc : ToolCallIntent)
       (tcs : List ToolCallIntent),
      (procStream (scripts roundIndex)).toolCallsCheck = some (tc :: tcs) →
      (runRounds scripts tools invoke jloads (fuel + 1) roundIndex hist).2 =
        (runRounds scripts tools invoke jloads fuel (roundIndex + 1)
          (hist ++ Message.assistantToolCalls "" (tc :: tcs) ::
            (execToolCalls tools invoke jloads (tc :: tcs).length 1 (tc :: tcs)).2)).2) ∧
    (∀ (tools : List String) (invoke : String → PyVal → InvokeResult)
       (jloads : String → Option PyVal) (n : Nat) (calls : List ToolCallIntent) (i : Nat),
      ((execToolCalls tools invoke jloads n i calls).2).length = calls.length) ∧
    (∀ (tools : List String) (invoke : String → PyVal → InvokeResult)
       (jloads : String → Option PyVal) (n : Nat) (calls : List ToolCallIntent)
       (j : Nat) (c : ToolCallIntent),
      calls[j]? = some c →
      ∃ content, ((execToolCalls tools invoke jloads n 1 calls).2)[j]? =
        some (Message.tool (effToolId c (j + 1)) c.name content)) := by
  refine ⟨runRounds_appendOnly, ?_, ?_, ?_⟩
  · intro scripts tools invoke jloads fuel roundIndex hist tc tcs h
    rw [runRounds_tool_eq scripts tools invoke jloads fuel roundIndex hist tc tcs h]
  · intro tools invoke jloads n calls i
    exact execToolCalls_msgs_length tools invoke jloads n calls i
  · intro tools invoke jloads n calls j c h
    have hx := execToolCalls_get? tools invoke jloads n calls 1 j c h
    rw [show (1 : Nat) + j = j + 1 from by omega] at hx
    exact hx

/-- Witness for C7: a one-intent tool round appends the assistant entry and
the matching tool entry, and the intent's id is carried by the tool entry. -/
theorem claimC7_witness :
    (runRounds (fun _ => ⟨[StreamEvent.modelEnd (some [⟨some "id7", "g", PyVal.vnone⟩])
        none], false⟩) [] (fun _ _ => InvokeResult.ok "r") (fun _ => none) (0 + 1) 1 []).2 =
      (runRounds (fun _ => ⟨[StreamEvent.modelEnd (some [⟨some "id7", "g", PyVal.vnone⟩])
          none], false⟩) [] (fun _ _ => InvokeResult.ok "r") (fun _ => none) 0 2
        ([] ++ Message.assistantToolCalls "" [⟨some "id7", "g", PyVal.vnone⟩] ::
          (execToolCalls [] (fun _ _ => InvokeResult.ok "r") (fun _ => none) 1 1
            [⟨some "id7", "g", PyVal.vnone⟩]).2)).2 ∧
    (∃ content, ((execToolCalls [] (fun _ _ => InvokeResult.ok "r") (fun _ => none) 1 1
        [⟨some "id7", "g", PyVal.vnone⟩]).2)[0]? =
      some (Message.tool (effToolId ⟨some "id7", "g", PyVal.vnone⟩ (0 + 1)) "g" content)) := by
  constructor
  · exact claimC7.2.1 (fun _ => ⟨[StreamEvent.modelEnd
      (some [⟨some "id7", "g", PyVal.vnone⟩]) none], false⟩) []
      (fun _ _ => InvokeResult.ok "r") (fun _ => none) 0 1 []
      ⟨some "id7", "g", PyVal.vnone⟩ [] rfl
  · exact claimC7.2.2.2 [] (fun _ _ => InvokeResult.ok "r") (fun _ => none) 1
      [⟨some "id7", "g", PyVal.vnone⟩] 0 ⟨some "id7", "g", PyVal.vnone⟩ rfl

/-- C4: on a scripted model that reports tool-call intents in every round,
`chat_stream` performs exactly 25 tool rounds (the transcript gains exactly 25
assistant tool-call entries) and then emits the terminal round-exhaustion
message as a normal response-start/chunk/end tail, so the loop terminates. -/
theorem claimC4 :
    ∀ (scripts : Nat → RoundScript) (tools : List String)
      (invoke : String → PyVal → InvokeResult) (jloads : String → Option PyVal)
      (u : String) (hist : List HistRecord),
      (∀ r, isToolRound (procStream (scripts r)).toolCallsCheck = true) →
      countToolRounds (chat_stream scripts tools invoke jloads u hist).2 =
        countToolRounds (buildSharedHistory hist u) + 25 ∧
      ∃ pre, (chat_stream scripts tools invoke jloads u hist).1 =
        pre ++ exhaustEvents := by
  intro scripts tools invoke jloads u hist h
  obtain ⟨hc, pre, hp⟩ := runRounds_exhaust scripts tools invoke jloads h max_rounds 1
    (buildSharedHistory hist u)
  constructor
  · exact hc
  · refine ⟨Event.status "开始生成..." :: pre, ?_⟩
    show Event.status "开始生成..." ::
      (runRounds scripts tools invoke jloads max_rounds 1 (buildSharedHistory hist u)).1 = _
    rw [hp]
    rfl

/-- Witness for C4: a model scripted to report one tool-call intent in every
round drives the loop to 25 tool rounds and the exhaustion tail. -/
theorem claimC4_witness :
    countToolRounds (chat_stream (fun _ => ⟨[StreamEvent.modelEnd
        (some [⟨none, "f", PyVal.vnone⟩]) none], false⟩) []
        (fun _ _ => InvokeResult.ok "r") (fun _ => none) "q" []).2 =
      countToolRounds (buildSharedHistory [] "q") + 25 ∧
    ∃ pre, (chat_stream (fun _ => ⟨[StreamEvent.modelEnd
        (some [⟨none, "f", PyVal.vnone⟩]) none], false⟩) []
        (fun _ _ => InvokeResult.ok "r") (fun _ => none) "q" []).1 =
      pre ++ exhaustEvents :=
  claimC4 (fun _ => ⟨[StreamEvent.modelEnd (some [⟨none, "f", PyVal.vnone⟩]) none],
      false⟩) [] (fun _ _ => InvokeResult.ok "r") (fun _ => none) "q" []
    (fun _ => rfl)

end MCPAgent
